import Mathlib

/-!
Verification of the yt-clipper pipeline (src/main.rs) against its
natural-language specification.  External processes (yt-dlp, ffmpeg) and the
filesystem are modelled as oracles supplied in an environment record; the
pure string / sequencing logic is translated directly from the source.
-/

/-- Models Rust `str::replace` from `src/main.rs:99-101` specialised to a
two-character pattern `a b` and a one-character replacement `r`: scan left to
right, replace each leftmost non-overlapping occurrence, continue after the
replacement. -/
def replace2 (a b r : Char) : List Char → List Char
  | [] => []
  | [c] => [c]
  | c1 :: c2 :: rest =>
    if c1 = a ∧ c2 = b then r :: replace2 a b r rest
    else c1 :: replace2 a b r (c2 :: rest)

/-- The three chained `replace` calls of `clean_url` (`src/main.rs:98-102`):
`\?` to `?`, then `\=` to `=`, then `\&` to `&`. -/
def cleanList (l : List Char) : List Char :=
  replace2 '\\' '&' '&' (replace2 '\\' '=' '=' (replace2 '\\' '?' '?' l))

/-- `clean_url` from `src/main.rs:98-102`: a total function on strings. -/
def clean_url (url : String) : String :=
  String.mk (cleanList url.data)

/-- Comparator transcribed from the spec's words (section 4.1): the same
string with the three shell-escape sequences `\?`, `\=`, `\&` removed, i.e.
a single left-to-right pass dropping the backslash of each such pair and no
other rewriting. -/
def specUnescape : List Char → List Char
  | [] => []
  | [c] => [c]
  | c1 :: c2 :: rest =>
    if c1 = '\\' ∧ (c2 = '?' ∨ c2 = '=' ∨ c2 = '&') then c2 :: specUnescape rest
    else c1 :: specUnescape (c2 :: rest)

/-- String-level version of `specUnescape`. -/
def specClean (s : String) : String :=
  String.mk (specUnescape s.data)

/-- Two-step induction on lists of characters, matching the recursion shape
of `replace2` and `specUnescape`. -/
theorem twoStepInd (P : List Char → Prop) (h0 : P []) (h1 : ∀ c, P [c])
    (h2 : ∀ c1 c2 rest, P rest → P (c2 :: rest) → P (c1 :: c2 :: rest)) :
    ∀ l, P l := by
  have key : ∀ l, P l ∧ ∀ c, P (c :: l) := by
    intro l
    induction l with
    | nil => exact ⟨h0, h1⟩
    | cons x t ih => exact ⟨ih.2 x, fun c => h2 c x t ih.1 (ih.2 x)⟩
  exact fun l => (key l).1

theorem replace2_match (a b r : Char) (m : List Char) :
    replace2 a b r (a :: b :: m) = r :: replace2 a b r m := by
  simp [replace2]

theorem replace2_nomatch (a b r c d : Char) (m : List Char) (h : ¬(c = a ∧ d = b)) :
    replace2 a b r (c :: d :: m) = c :: replace2 a b r (d :: m) := by
  simp [replace2, h]

theorem replace2_cons_ne (a b r c : Char) (m : List Char) (h : c ≠ a) :
    replace2 a b r (c :: m) = c :: replace2 a b r m := by
  cases m with
  | nil => simp [replace2]
  | cons d t => exact replace2_nomatch a b r c d t (by simp [h])

theorem replace2_ne_nil (a b r c : Char) (m : List Char) :
    replace2 a b r (c :: m) ≠ [] := by
  cases m with
  | nil => simp [replace2]
  | cons d t =>
    by_cases h : c = a ∧ d = b
    · simp [replace2, h]
    · simp [replace2, h]

theorem replace2_head (a b r c : Char) (m : List Char) :
    (replace2 a b r (c :: m)).head? = some r ∨ (replace2 a b r (c :: m)).head? = some c := by
  cases m with
  | nil => right; simp [replace2]
  | cons d t =>
    by_cases h : c = a ∧ d = b
    · left; simp [replace2, h]
    · right; simp [replace2, h]

theorem specUnescape_cons_ne (c : Char) (m : List Char) (h : c ≠ '\\') :
    specUnescape (c :: m) = c :: specUnescape m := by
  cases m with
  | nil => simp [specUnescape]
  | cons d t => simp [specUnescape, h]

/-- The chained replacements of `clean_url` coincide with the single-pass
unescape described by the spec. -/
theorem cleanList_eq_spec : ∀ l, cleanList l = specUnescape l := by
  apply twoStepInd
  · rfl
  · intro c; rfl
  · intro c1 c2 rest ih1 ih2
    by_cases hc1 : c1 = '\\'
    · subst hc1
      by_cases hq : c2 = '?'
      · subst hq
        unfold cleanList at ih1 ⊢
        rw [replace2_match,
          replace2_cons_ne '\\' '=' '=' '?' _ (by decide),
          replace2_cons_ne '\\' '&' '&' '?' _ (by decide), ih1]
        simp [specUnescape]
      · by_cases he : c2 = '='
        · subst he
          unfold cleanList at ih1 ⊢
          rw [replace2_nomatch '\\' '?' '?' '\\' '=' rest (by simp),
            replace2_cons_ne '\\' '?' '?' '=' _ (by decide),
            replace2_match,
            replace2_cons_ne '\\' '&' '&' '=' _ (by decide), ih1]
          simp [specUnescape]
        · by_cases ha : c2 = '&'
          · subst ha
            unfold cleanList at ih1 ⊢
            rw [replace2_nomatch '\\' '?' '?' '\\' '&' rest (by simp),
              replace2_cons_ne '\\' '?' '?' '&' _ (by decide),
              replace2_nomatch '\\' '=' '=' '\\' '&' _ (by simp),
              replace2_cons_ne '\\' '=' '=' '&' _ (by decide),
              replace2_match, ih1]
            simp [specUnescape]
          · by_cases hb : c2 = '\\'
            · subst hb
              unfold cleanList at ih2 ⊢
              rw [replace2_nomatch '\\' '?' '?' '\\' '\\' rest (by simp)]
              obtain ⟨d, t, hdt⟩ :
                  ∃ d t, replace2 '\\' '?' '?' ('\\' :: rest) = d :: t := by
                cases hrep : replace2 '\\' '?' '?' ('\\' :: rest) with
                | nil => exact absurd hrep (replace2_ne_nil '\\' '?' '?' '\\' rest)
                | cons d t => exact ⟨d, t, rfl⟩
              have hd : d = '?' ∨ d = '\\' := by
                have := replace2_head '\\' '?' '?' '\\' rest
                rw [hdt] at this
                simpa using this
              rw [hdt]
              have hdne : ¬(d = '='):= by rcases hd with h | h <;> simp [h]
              rw [replace2_nomatch '\\' '=' '=' '\\' d t (by simp [hdne])]
              obtain ⟨e, u, heu⟩ :
                  ∃ e u, replace2 '\\' '=' '=' (d :: t) = e :: u := by
                cases hrep : replace2 '\\' '=' '=' (d :: t) with
                | nil => exact absurd hrep (replace2_ne_nil '\\' '=' '=' d t)
                | cons e u => exact ⟨e, u, rfl⟩
              have he2 : e = '=' ∨ e = d := by
                have := replace2_head '\\' '=' '=' d t
                rw [heu] at this
                simpa using this
              rw [heu]
              have hene : ¬(e = '&') := by
                rcases he2 with h | h
                · simp [h]
                · rcases hd with h2 | h2 <;> simp [h, h2]
              rw [replace2_nomatch '\\' '&' '&' '\\' e u (by simp [hene])]
              rw [← heu, ← hdt, ih2]
              simp [specUnescape]
            · unfold cleanList at ih1 ⊢
              rw [replace2_nomatch '\\' '?' '?' '\\' c2 rest (by simp [hq]),
                replace2_cons_ne '\\' '?' '?' c2 _ hb,
                replace2_nomatch '\\' '=' '=' '\\' c2 _ (by simp [he]),
                replace2_cons_ne '\\' '=' '=' c2 _ hb,
                replace2_nomatch '\\' '&' '&' '\\' c2 _ (by simp [ha]),
                replace2_cons_ne '\\' '&' '&' c2 _ hb, ih1]
              simp [specUnescape, hq, he, ha, specUnescape_cons_ne c2 rest hb]
    · unfold cleanList at ih2 ⊢
      rw [replace2_nomatch '\\' '?' '?' c1 c2 rest (by simp [hc1]),
        replace2_cons_ne '\\' '=' '=' c1 _ hc1,
        replace2_cons_ne '\\' '&' '&' c1 _ hc1, ih2]
      cases rest with
      | nil => simp [specUnescape, hc1]
      | cons x t => simp [specUnescape, hc1]

/-- On a list without backslashes, each of the three replacements is the
identity. -/
theorem replace2_id_of_no_backslash (b r : Char) :
    ∀ l, (∀ c ∈ l, c ≠ '\\') → replace2 '\\' b r l = l := by
  apply twoStepInd (P := fun l => (∀ c ∈ l, c ≠ '\\') → replace2 '\\' b r l = l)
  · intro _; rfl
  · intro c _; rfl
  · intro c1 c2 rest _ ih2 h
    have hc1 : c1 ≠ '\\' := h c1 (by simp)
    rw [replace2_nomatch '\\' b r c1 c2 rest (by simp [hc1])]
    rw [ih2 (fun c hc => h c (by simp [hc]))]

/-- `clean_url` is the identity on strings without a backslash. -/
theorem clean_url_id_of_no_backslash (s : String) (h : ∀ c ∈ s.data, c ≠ '\\') :
    clean_url s = s := by
  obtain ⟨l⟩ := s
  show String.mk (cleanList l) = String.mk l
  unfold cleanList
  rw [replace2_id_of_no_backslash '?' '?' l h,
    replace2_id_of_no_backslash '=' '=' l h,
    replace2_id_of_no_backslash '&' '&' l h]

/-- Claim C3: `clean_url` returns its input with the three escape sequences
`\?`, `\=`, `\&` unescaped and performs no other rewriting; it is a total
(pure) function `String → String` with no failure mode, and it coincides
with the spec's single-pass unescape on every input. -/
theorem clean_url_refines_spec (s : String) : clean_url s = specClean s := by
  obtain ⟨l⟩ := s
  exact congrArg String.mk (cleanList_eq_spec l)

/-- Counterexample to claim C2 as stated: `clean_url` is not idempotent.
On the three-character input `\\?` one application yields `\?` and a second
application yields `?`. -/
theorem clean_url_not_idempotent :
    clean_url (clean_url ("\\\\?")) ≠ clean_url ("\\\\?") := by decide

/-- Claim C2 (amended): `clean_url` is idempotent on every input that
contains no backslash; in general a second application can strip further
escape sequences uncovered by the first. -/
theorem clean_url_idempotent_no_backslash (s : String)
    (h : ∀ c ∈ s.data, c ≠ '\\') :
    clean_url (clean_url s) = clean_url s := by
  simp only [clean_url_id_of_no_backslash s h]

theorem clean_url_idempotent_no_backslash_witness :
    (∀ c ∈ ("https://www.youtube.com/watch?v=abc&t=10").data, c ≠ '\\') ∧
    clean_url (clean_url ("https://www.youtube.com/watch?v=abc&t=10")) =
      clean_url ("https://www.youtube.com/watch?v=abc&t=10") :=
  ⟨by decide, clean_url_idempotent_no_backslash _ (by decide)⟩

/-- Claim C10: `clean_url` is the identity on every input string containing
no backslash character. -/
theorem clean_url_identity_no_backslash (s : String)
    (h : ∀ c ∈ s.data, c ≠ '\\') :
    clean_url s = s :=
  clean_url_id_of_no_backslash s h

theorem clean_url_identity_no_backslash_witness :
    (∀ c ∈ ("https://youtu.be/xyz?t=42").data, c ≠ '\\') ∧
    clean_url ("https://youtu.be/xyz?t=42") = ("https://youtu.be/xyz?t=42") :=
  ⟨by decide, clean_url_identity_no_backslash _ (by decide)⟩

/-- Decimal digit character for a value below ten. -/
def digitChar : Nat → Char
  | 0 => '0'
  | 1 => '1'
  | 2 => '2'
  | 3 => '3'
  | 4 => '4'
  | 5 => '5'
  | 6 => '6'
  | 7 => '7'
  | 8 => '8'
  | 9 => '9'
  | _ => '*'

/-- Numeric value of a decimal digit character. -/
def digitVal (c : Char) : Nat := c.toNat - 48

/-- Fuel-indexed decimal rendering of a natural number (most significant
digit first); the fuel is always sufficient when it exceeds the number. -/
def natDigitsF : Nat → Nat → List Char
  | 0, _ => []
  | f + 1, n =>
    if n < 10 then [digitChar n]
    else natDigitsF f (n / 10) ++ [digitChar (n % 10)]

/-- Decimal rendering of a natural number, as produced by Rust integer
formatting. -/
def natDigits (n : Nat) : List Char := natDigitsF (n + 1) n

/-- Value of a most-significant-first digit list. -/
def digitsVal (l : List Char) : Nat :=
  l.foldl (fun a c => 10 * a + digitVal c) 0

/-- Rust `format!` with the `{:02}` specifier (`src/main.rs:196`): decimal,
zero-padded on the left to at least two characters. -/
def numFmt (n : Nat) : String :=
  if n < 10 then String.mk ('0' :: natDigits n) else String.mk (natDigits n)

theorem digitVal_digitChar (m : Nat) (h : m < 10) : digitVal (digitChar m) = m := by
  interval_cases m <;> decide

theorem digitChar_isDigit (m : Nat) (h : m < 10) : (digitChar m).isDigit = true := by
  interval_cases m <;> decide

theorem digitsVal_append_single (l : List Char) (c : Char) :
    digitsVal (l ++ [c]) = 10 * digitsVal l + digitVal c := by
  simp [digitsVal, List.foldl_append]

theorem natDigitsF_eval : ∀ f n, n < f → digitsVal (natDigitsF f n) = n := by
  intro f
  induction f with
  | zero => intro n h; omega
  | succ f ih =>
    intro n h
    by_cases h10 : n < 10
    · simp [natDigitsF, h10, digitsVal, digitVal_digitChar n h10]
    · have hdiv : n / 10 < n := Nat.div_lt_self (by omega) (by omega)
      simp only [natDigitsF, h10, if_false]
      rw [digitsVal_append_single, ih (n / 10) (by omega),
        digitVal_digitChar (n % 10) (by omega)]
      omega

theorem digitsVal_natDigits (n : Nat) : digitsVal (natDigits n) = n :=
  natDigitsF_eval (n + 1) n (by omega)

theorem natDigitsF_all_digits :
    ∀ f n, ∀ c ∈ natDigitsF f n, c.isDigit = true := by
  intro f
  induction f with
  | zero => intro n c hc; simp [natDigitsF] at hc
  | succ f ih =>
    intro n c hc
    by_cases h10 : n < 10
    · simp [natDigitsF, h10] at hc
      rw [hc]; exact digitChar_isDigit n h10
    · simp only [natDigitsF, h10, if_false, List.mem_append, List.mem_singleton] at hc
      rcases hc with hc | hc
      · exact ih (n / 10) c hc
      · rw [hc]; exact digitChar_isDigit (n % 10) (by omega)

theorem numFmt_all_digits (n : Nat) : ∀ c ∈ (numFmt n).data, c.isDigit = true := by
  intro c hc
  unfold numFmt at hc
  by_cases h10 : n < 10
  · simp only [h10, if_true] at hc
    rcases List.mem_cons.mp hc with hc | hc
    · rw [hc]; decide
    · exact natDigitsF_all_digits (n + 1) n c hc
  · simp only [h10, if_false] at hc
    exact natDigitsF_all_digits (n + 1) n c hc

theorem digitsVal_numFmt (n : Nat) : digitsVal ((numFmt n).data) = n := by
  unfold numFmt
  by_cases h10 : n < 10
  · simp only [h10, if_true]
    show digitsVal ('0' :: natDigits n) = n
    have : digitsVal ('0' :: natDigits n) = digitsVal (natDigits n) := by
      simp [digitsVal, digitVal]
    rw [this, digitsVal_natDigits]
  · simp only [h10, if_false]
    exact digitsVal_natDigits n

theorem natDigitsF_ne_nil (f n : Nat) (h : 0 < f) : natDigitsF f n ≠ [] := by
  cases f with
  | zero => omega
  | succ f =>
    by_cases h10 : n < 10
    · simp [natDigitsF, h10]
    · simp [natDigitsF, h10]

theorem numFmt_length (n : Nat) : 2 ≤ (numFmt n).length := by
  unfold numFmt
  by_cases h10 : n < 10
  · simp only [h10, if_true]
    show 2 ≤ ('0' :: natDigits n).length
    have := natDigitsF_ne_nil (n + 1) n (by omega)
    have : 1 ≤ (natDigits n).length := by
      cases hl : natDigits n with
      | nil => exact absurd hl this
      | cons x t => simp
    simp [natDigits] at this ⊢
    omega
  · simp only [h10, if_false]
    show 2 ≤ (natDigits n).length
    unfold natDigits natDigitsF
    simp only [h10, if_false]
    have := natDigitsF_ne_nil n (n / 10) (by omega)
    have : 1 ≤ (natDigitsF n (n / 10)).length := by
      cases hl : natDigitsF n (n / 10) with
      | nil => exact absurd hl this
      | cons x t => simp
    simp
    omega

/-- Characters removed by the `sanitize_filename` crate's illegal-character
class (its default options, replacement by the empty string). -/
def illegalChar (c : Char) : Bool :=
  c = '/' || c = '?' || c = '<' || c = '>' || c = '\\' || c = ':' ||
  c = '*' || c = '|' || c = '"'

/-- Control characters removed by the `sanitize_filename` crate. -/
def controlChar (c : Char) : Bool :=
  c.toNat ≤ 0x1f || (0x80 ≤ c.toNat && c.toNat ≤ 0x9f)

/-- Longest prefix whose UTF-8 byte length fits in the given budget; models
the crate's byte-based truncation to 255 bytes at a character boundary. -/
def truncBytes : Nat → List Char → List Char
  | _, [] => []
  | budget, c :: rest =>
    if c.utf8Size ≤ budget then c :: truncBytes (budget - c.utf8Size) rest
    else []

/-- `sanitize_filename::sanitize` with default options on a non-Windows
target: remove illegal and control characters, map an all-dots result to the
empty string, truncate to 255 bytes. -/
def sanitize (s : String) : String :=
  let step1 := s.data.filter (fun c => !(illegalChar c || controlChar c))
  let step2 := if step1 ≠ [] ∧ step1.all (fun c => c == '.') then [] else step1
  String.mk (truncBytes 255 step2)

/-- Chapter metadata (`src/main.rs:30-35`); the `f64` times are modelled as
rationals, exact on the concrete values the claims exercise. -/
structure Chapter where
  title : String
  start_time : ℚ
  end_time : ℚ
deriving DecidableEq

/-- Video metadata (`src/main.rs:24-28`). -/
structure VideoInfo where
  title : String
  chapters : Option (List Chapter)
deriving DecidableEq

/-- Lines 52-58 of `src/main.rs`: `context` on the absent `chapters` field,
then `bail!` on an empty list. -/
def chaptersOrError : Option (List Chapter) → Except String (List Chapter)
  | none => Except.error ("No chapters found in this video")
  | some cs =>
    if cs.isEmpty then Except.error ("No chapters found in this video")
    else Except.ok cs

/-- Output filename stem for chapter index `i` (0-based), from
`src/main.rs:196-198`: 1-based zero-padded sequence number, underscore,
sanitized chapter title. -/
def stem (i : Nat) (ch : Chapter) : String :=
  numFmt (i + 1) ++ "_" ++ sanitize ch.title

/-- Full clip filename (`src/main.rs:198`). -/
def clipFileName (i : Nat) (ch : Chapter) : String :=
  stem i ch ++ ".mp4"

/-- Stems of all chapters, in input order, starting at 0-based index `k`. -/
def stemList : Nat → List Chapter → List String
  | _, [] => []
  | k, ch :: rest => stem k ch :: stemList (k + 1) rest

/-- Zero-pad a fractional part to exactly three digits. -/
def pad3 (k : Nat) : List Char :=
  if k < 10 then '0' :: '0' :: natDigits k
  else if k < 100 then '0' :: natDigits k
  else natDigits k

/-- Rust `format!` with the `{:.3}` specifier (`src/main.rs:210-212`):
the absolute value times 1000 is rounded half-to-even to an integer, whose
last three decimal digits form the fractional part.  Computed on the exact
rational value through its numerator and denominator; on values exactly
representable in `f64` (all values the claims exercise) this agrees with
the formatting of the source. -/
def fmt3 (q : ℚ) : String :=
  let scaled := q.num.natAbs * 1000
  let d := q.den
  let w := scaled / d
  let r := scaled % d
  let m := if 2 * r < d then w
           else if d < 2 * r then w + 1
           else if w % 2 = 0 then w else w + 1
  (if q.num < 0 then ("-") else ("")) ++ String.mk (natDigits (m / 1000)) ++
    (".") ++ String.mk (pad3 (m % 1000))

/-- One ffmpeg stream-copy cut planned by the chapter splitter
(`src/main.rs:195-223`): output file, numeric start/duration, and the
string arguments passed after `-ss` and `-t`. -/
structure ClipCmd where
  file : String
  start : ℚ
  dur : ℚ
  startStr : String
  durStr : String
deriving DecidableEq

/-- The cut planned for chapter `ch` at 0-based index `i`. -/
def clipCmd (i : Nat) (ch : Chapter) : ClipCmd :=
  { file := clipFileName i ch
    start := ch.start_time
    dur := ch.end_time - ch.start_time
    startStr := fmt3 ch.start_time
    durStr := fmt3 (ch.end_time - ch.start_time) }

/-- All cuts planned by the splitter loop, in input order. -/
def clipCmds : Nat → List Chapter → List ClipCmd
  | _, [] => []
  | i, ch :: rest => clipCmd i ch :: clipCmds (i + 1) rest

theorem takeWhile_all_append (p : Char → Bool) :
    ∀ (l : List Char) (x : Char) (r : List Char),
      (∀ c ∈ l, p c = true) → p x = false →
      (l ++ x :: r).takeWhile p = l := by
  intro l
  induction l with
  | nil => intro x r _ hx; simp [List.takeWhile_cons, hx]
  | cons a t ih =>
    intro x r hl hx
    have ha : p a = true := hl a (by simp)
    simp only [List.cons_append, List.takeWhile_cons, ha, if_true]
    rw [ih x r (fun c hc => hl c (by simp [hc])) hx]

theorem string_data_append (s t : String) : (s ++ t).data = s.data ++ t.data := by
  obtain ⟨l⟩ := s
  obtain ⟨m⟩ := t
  rfl

theorem stem_data (i : Nat) (ch : Chapter) :
    (stem i ch).data = (numFmt (i + 1)).data ++ '_' :: (sanitize ch.title).data := by
  unfold stem
  rw [string_data_append, string_data_append]
  simp

/-- Distinct chapter indices give distinct stems: the digit prefix before
the underscore recovers the sequence number. -/
theorem stem_idx_inj {i j : Nat} {ch ch2 : Chapter} (h : stem i ch = stem j ch2) :
    i = j := by
  have hd : (stem i ch).data = (stem j ch2).data := by rw [h]
  rw [stem_data, stem_data] at hd
  have htw := congrArg (List.takeWhile Char.isDigit) hd
  rw [takeWhile_all_append Char.isDigit _ _ _ (numFmt_all_digits (i + 1)) (by decide),
    takeWhile_all_append Char.isDigit _ _ _ (numFmt_all_digits (j + 1)) (by decide)] at htw
  have := congrArg digitsVal htw
  rw [digitsVal_numFmt, digitsVal_numFmt] at this
  omega

theorem stemList_mem {s : String} :
    ∀ (cs : List Chapter) (k : Nat), s ∈ stemList k cs →
      ∃ m ch, k ≤ m ∧ s = stem m ch := by
  intro cs
  induction cs with
  | nil => intro k h; simp [stemList] at h
  | cons ch rest ih =>
    intro k h
    rcases List.mem_cons.mp h with h | h
    · exact ⟨k, ch, Nat.le_refl k, h⟩
    · obtain ⟨m, ch2, hm, he⟩ := ih (k + 1) h
      exact ⟨m, ch2, by omega, he⟩

theorem stemList_nodup : ∀ (cs : List Chapter) (k : Nat), (stemList k cs).Nodup := by
  intro cs
  induction cs with
  | nil => intro k; simp [stemList]
  | cons ch rest ih =>
    intro k
    rw [stemList, List.nodup_cons]
    refine ⟨fun hmem => ?_, ih (k + 1)⟩
    obtain ⟨m, ch2, hm, he⟩ := stemList_mem rest (k + 1) hmem
    have := stem_idx_inj he
    omega

theorem stemList_getElem :
    ∀ (cs : List Chapter) (k i : Nat) (h : i < cs.length),
      (stemList k cs)[i]? = some (stem (k + i) (cs.get ⟨i, h⟩)) := by
  intro cs
  induction cs with
  | nil => intro k i h; simp at h
  | cons ch rest ih =>
    intro k i h
    cases i with
    | zero => simp [stemList]
    | succ i =>
      have hi : i < rest.length := by simpa using h
      rw [stemList]
      have : (stem k ch :: stemList (k + 1) rest)[i + 1]? = (stemList (k + 1) rest)[i]? := by
        simp
      rw [this, ih (k + 1) i hi]
      have : k + 1 + i = k + (i + 1) := by omega
      rw [this]
      rfl

/-- Claim C6: for every chapter list, the output filename stems are unique
(`Nodup`), in input order the `i`-th stem is the 1-based zero-padded
sequence number `numFmt (i+1)` concatenated (via an underscore) with the
sanitized chapter title, and every sequence number has at least two
digits. -/
theorem chapter_stems_unique_ordered (cs : List Chapter) :
    (stemList 0 cs).Nodup ∧
    (∀ i (h : i < cs.length),
      (stemList 0 cs)[i]? =
        some (numFmt (i + 1) ++ "_" ++ sanitize ((cs.get ⟨i, h⟩).title))) ∧
    (∀ i : Nat, 2 ≤ (numFmt (i + 1)).length) := by
  refine ⟨stemList_nodup cs 0, fun i h => ?_, fun i => numFmt_length (i + 1)⟩
  rw [stemList_getElem cs 0 i h]
  rw [Nat.zero_add]
  rfl

/-- Concrete two-chapter list used by several witnesses; the first title
contains a character the sanitizer strips. -/
def demoPair : List Chapter := [⟨("A:B"), 1, 2⟩, ⟨("C"), 2, 3⟩]

theorem chapter_stems_unique_ordered_witness :
    (stemList 0 demoPair).Nodup ∧
    (stemList 0 demoPair)[0]? =
      some (numFmt 1 ++ "_" ++ sanitize ((demoPair.get ⟨0, by decide⟩).title)) ∧
    2 ≤ (numFmt 1).length :=
  ⟨(chapter_stems_unique_ordered demoPair).1,
   (chapter_stems_unique_ordered demoPair).2.1 0 (by decide),
   (chapter_stems_unique_ordered demoPair).2.2 0⟩

/-- The two-chapter list of the spec's formatting example. -/
def demoChapters : List Chapter :=
  [⟨("Intro"), 0, 10⟩, ⟨("Main"), 10, 25⟩]

/-- Claim C7: on chapters with times (0,10) and (10,25) the splitter
computes durations `end_time - start_time` of 10 and 15, and formats the
start times and durations with exactly three decimal places. -/
theorem splitter_durations_and_formatting :
    (clipCmds 0 demoChapters).map (fun c => c.dur) = [10, 15] ∧
    (clipCmds 0 demoChapters).map (fun c => c.startStr) = [("0.000"), ("10.000")] ∧
    (clipCmds 0 demoChapters).map (fun c => c.durStr) = [("10.000"), ("15.000")] := by
  have h1 : (10 : ℚ) - 0 = 10 := by norm_num
  have h2 : (25 : ℚ) - 10 = 15 := by norm_num
  refine ⟨?_, ?_, ?_⟩
  · simp [clipCmds, clipCmd, demoChapters, h1, h2]
  · simp only [clipCmds, clipCmd, demoChapters, List.map]
    decide
  · simp only [clipCmds, clipCmd, demoChapters, List.map, h1, h2]
    decide

/-- Execution of `split_video_into_chapters` (`src/main.rs:182-236`) with
the per-chapter ffmpeg exit status supplied by the oracle `ok`: returns the
0-based indices of the chapters whose ffmpeg invocation ran, the clip files
produced by successful invocations, and the error of the first failing
chapter (the loop `bail!`s there, so no later chapter is processed and
earlier files stay on disk). -/
def splitGo (ok : Nat → Bool) : Nat → List Chapter → List Nat × List String × Option String
  | _, [] => ([], [], none)
  | i, ch :: rest =>
    if ok i then
      let r := splitGo ok (i + 1) rest
      (i :: r.1, clipFileName i ch :: r.2.1, r.2.2)
    else
      ([i], [], some (("Failed to split chapter: ") ++ ch.title))

/-- The clip files of a chapter list starting at index `i`. -/
def fileList : Nat → List Chapter → List String
  | _, [] => []
  | i, ch :: rest => clipFileName i ch :: fileList (i + 1) rest

theorem splitGo_abort_aux (ok : Nat → Bool) :
    ∀ (cs : List Chapter) (i j : Nat) (hj : j < cs.length),
      (∀ k, k < j → ok (i + k) = true) → ok (i + j) = false →
      splitGo ok i cs =
        (List.range' i (j + 1), fileList i (cs.take j),
          some (("Failed to split chapter: ") ++ (cs.get ⟨j, hj⟩).title)) := by
  intro cs
  induction cs with
  | nil => intro i j hj _ _; simp at hj
  | cons ch rest ih =>
    intro i j hj hpre hfail
    cases j with
    | zero =>
      have h0 : ok i = false := by simpa using hfail
      simp [splitGo, h0, List.range', fileList]
    | succ j =>
      have h0 : ok i = true := by simpa using hpre 0 (by omega)
      have hj2 : j < rest.length := by simpa using hj
      have hpre2 : ∀ k, k < j → ok (i + 1 + k) = true := by
        intro k hk
        have : i + 1 + k = i + (k + 1) := by omega
        rw [this]
        exact hpre (k + 1) (by omega)
      have hfail2 : ok (i + 1 + j) = false := by
        have : i + 1 + j = i + (j + 1) := by omega
        rw [this]
        exact hfail
      simp only [splitGo, h0, if_true]
      rw [ih (i + 1) j hj2 hpre2 hfail2]
      simp [List.range', fileList, List.take]

/-- Claim C5: if the ffmpeg invocation for chapter `j` exits non-zero (and
the earlier ones succeeded), the whole run aborts with an error naming that
chapter: exactly the chapters `0..j` were invoked, no later chapter is
processed, and the files of the earlier chapters `0..j-1` remain. -/
theorem split_failure_aborts (ok : Nat → Bool) (cs : List Chapter) (j : Nat)
    (hj : j < cs.length) (hpre : ∀ k, k < j → ok k = true) (hfail : ok j = false) :
    splitGo ok 0 cs =
      (List.range (j + 1), fileList 0 (cs.take j),
        some (("Failed to split chapter: ") ++ (cs.get ⟨j, hj⟩).title)) := by
  rw [List.range_eq_range']
  exact splitGo_abort_aux ok cs 0 j hj (by simpa using hpre) (by simpa using hfail)

/-- Three-chapter list for the splitter witness. -/
def demoTriple : List Chapter :=
  [⟨("One"), 0, 5⟩, ⟨("Two"), 5, 9⟩, ⟨("Three"), 9, 12⟩]

/-- Oracle that fails exactly at chapter index 1. -/
def okExceptOne (n : Nat) : Bool := !(n == 1)

theorem split_failure_aborts_witness :
    (1 < demoTriple.length) ∧ okExceptOne 1 = false ∧
    splitGo okExceptOne 0 demoTriple =
      (List.range 2, fileList 0 (demoTriple.take 1),
        some (("Failed to split chapter: ") ++ (demoTriple.get ⟨1, by decide⟩).title)) :=
  ⟨by decide, by decide,
   split_failure_aborts okExceptOne demoTriple 1 (by decide)
     (fun k hk => match k, hk with | 0, _ => rfl) (by decide)⟩

/-- Claim C9: an absent `chapters` field and an empty chapter list yield the
identical error, with message text "No chapters found in this video"; the
two cases cannot be told apart from the error at the public interface. -/
theorem no_chapters_message_identical :
    chaptersOrError none = chaptersOrError (some []) ∧
    chaptersOrError none = Except.error ("No chapters found in this video") :=
  ⟨rfl, rfl⟩

/-- The three per-chapter format variants (`src/main.rs:260-340`). -/
inductive VKind where
  | vertical
  | audioOnly
  | noAudio
deriving DecidableEq

/-- Context message attached to a variant ffmpeg spawn failure
(`src/main.rs:290,314,338`). -/
def variantMsg : VKind → String
  | VKind.vertical => "Failed to create vertical format"
  | VKind.audioOnly => "Failed to create audio only format"
  | VKind.noAudio => "Failed to create no audio format"

/-- The loop of `generate_format_variants` (`src/main.rs:260-340`).
`spawn i k` tells whether the ffmpeg process for chapter `i`, variant `k`
could be started: a spawn failure hits the `?` after
`.status().context("Failed to create X format")` and aborts with that
message.  `exitOk` gives the process exit status; the source drops the
`ExitStatus` value without ever inspecting it, so the result cannot depend
on `exitOk`.  Returns the outcome together with the invocations performed,
in order. -/
def genGo (spawn exitOk : Nat → VKind → Bool) :
    Nat → List Chapter → Except String Unit × List (Nat × VKind)
  | _, [] => (Except.ok (), [])
  | i, _ :: rest =>
    if spawn i VKind.vertical = false then
      (Except.error (variantMsg VKind.vertical), [(i, VKind.vertical)])
    else if spawn i VKind.audioOnly = false then
      (Except.error (variantMsg VKind.audioOnly),
        [(i, VKind.vertical), (i, VKind.audioOnly)])
    else if spawn i VKind.noAudio = false then
      (Except.error (variantMsg VKind.noAudio),
        [(i, VKind.vertical), (i, VKind.audioOnly), (i, VKind.noAudio)])
    else
      let r := genGo spawn exitOk (i + 1) rest
      (r.1, (i, VKind.vertical) :: (i, VKind.audioOnly) :: (i, VKind.noAudio) :: r.2)

/-- All 3 x N variant invocations, in loop order. -/
def fullTrace : Nat → List Chapter → List (Nat × VKind)
  | _, [] => []
  | i, _ :: rest =>
    (i, VKind.vertical) :: (i, VKind.audioOnly) :: (i, VKind.noAudio) ::
      fullTrace (i + 1) rest

/-- Spawn oracle that fails exactly for the audio-only variant of the first
chapter. -/
def spawnFailAudio0 (n : Nat) (k : VKind) : Bool :=
  match n, k with
  | 0, VKind.audioOnly => false
  | _, _ => true

/-- Counterexample to claim C1 as stated: a failing variant sub-operation
that is reported via the "Failed to create X format" message is fatal, not
non-aborting.  With two chapters and the audio-only spawn of chapter 0
failing, the run stops with that error after only two invocations: the
remaining sub-operation of chapter 0 and all of chapter 1 never execute,
and the error is propagated to the caller. -/
theorem variant_failure_aborts_cex :
    genGo spawnFailAudio0 (fun _ _ => true) 0 demoPair =
      (Except.error ("Failed to create audio only format"),
        [(0, VKind.vertical), (0, VKind.audioOnly)]) ∧
    genGo spawnFailAudio0 (fun _ _ => true) 0 demoPair ≠
      (Except.ok (), fullTrace 0 demoPair) := by
  have h1 : genGo spawnFailAudio0 (fun _ _ => true) 0 demoPair =
      (Except.error ("Failed to create audio only format"),
        [(0, VKind.vertical), (0, VKind.audioOnly)]) := rfl
  refine ⟨h1, ?_⟩
  rw [h1]
  intro hcontra
  have := congrArg Prod.fst hcontra
  simp at this

/-- Claim C1 (amended): only a variant whose ffmpeg process cannot be
spawned produces the "Failed to create X format" error, and that error is
fatal; a variant process that merely exits non-zero is neither reported nor
propagated: whenever every spawn succeeds, all three sub-operations of
every chapter execute and the generator returns success, for every exit
status oracle. -/
theorem variant_exit_status_ignored (spawn exitOk : Nat → VKind → Bool)
    (h : ∀ n k, spawn n k = true) :
    ∀ (cs : List Chapter) (i : Nat),
      genGo spawn exitOk i cs = (Except.ok (), fullTrace i cs) := by
  intro cs
  induction cs with
  | nil => intro i; rfl
  | cons ch rest ih =>
    intro i
    simp [genGo, h, fullTrace, ih (i + 1)]

theorem variant_exit_status_ignored_witness :
    (∀ n k, (fun (_ : Nat) (_ : VKind) => true) n k = true) ∧
    genGo (fun _ _ => true) (fun _ _ => false) 0 demoPair =
      (Except.ok (), fullTrace 0 demoPair) :=
  ⟨fun _ _ => rfl,
   variant_exit_status_ignored (fun _ _ => true) (fun _ _ => false)
     (fun _ _ => rfl) demoPair 0⟩

/-- Command-line arguments (`src/main.rs:10-22`). -/
structure Args where
  url : String
  keep_full : Bool
  formats : Bool

/-- Oracle for everything outside the process: presence of the two external
binaries, the outcome of the metadata fetch, directory creation, the
download, the per-chapter split exit statuses, the variant spawn and exit
statuses, and the final file removal. -/
structure Env where
  ytDlpPresent : Bool
  ffmpegPresent : Bool
  fetchResult : Except String VideoInfo
  clipsDirOk : Bool
  downloadOk : Bool
  downloadFileExists : Bool
  splitOk : Nat → Bool
  formatsDirOk : Bool
  variantDirs : Except String Unit
  variantSpawn : Nat → VKind → Bool
  variantExit : Nat → VKind → Bool
  removeOk : Bool

/-- Externally visible steps of one run, in order. -/
inductive Event where
  | depCheck (tool : String)
  | fetchData
  | download
  | splitInvoke (i : Nat)
  | variantInvoke (i : Nat) (k : VKind)
  | removeFull
deriving DecidableEq

/-- Output tree state at the end of a run: whether the merged full-length
video file is present, and the clip files written. -/
structure Files where
  fullVideo : Bool
  clips : List String

/-- Empty output state. -/
def noFiles : Files := { fullVideo := false, clips := [] }

/-- Error message of `check_dependency` (`src/main.rs:104-117`), including
the literal line break inside "ffmpeg" present in the source string. -/
def depMissingMsg (tool : String) : String :=
  tool ++ (" is not installed or not in PATH. Please install it first.\nFor yt-dlp: https://github.com/yt-dlp/yt-dlp#installation\nFor ff\nmpeg: https://ffmpeg.org/download.html")

/-- Trace prefix after the two dependency checks and the metadata fetch. -/
def preFetch : List Event :=
  [Event.depCheck ("yt-dlp"), Event.depCheck ("ffmpeg"), Event.fetchData]

/-- The `if args.formats` block of `main` (`src/main.rs:76-81`) plus
`generate_format_variants` (`src/main.rs:238-345`): create the `formats`
directory and the three variant subdirectories, then run the variant
loop. -/
def formatsPhase (args : Args) (env : Env) (chapters : List Chapter) :
    Except String Unit × List Event :=
  if args.formats = false then (Except.ok (), [])
  else if env.formatsDirOk = false then
    (Except.error ("Failed to create formats directory"), [])
  else
    match env.variantDirs with
    | Except.error e => (Except.error e, [])
    | Except.ok _ =>
      let r := genGo env.variantSpawn env.variantExit 0 chapters
      (r.1, r.2.map (fun p => Event.variantInvoke p.1 p.2))

/-- The pipeline of `main` (`src/main.rs:37-96`): dependency checks, URL
cleaning, metadata fetch, chapter presence check, clips directory creation,
download, chapter split, optional format variants, and removal of the full
video unless `keep_full` is set.  Returns the process outcome, the ordered
trace of external steps, and the final output-tree state. -/
def mainRun (args : Args) (env : Env) : Except String Unit × List Event × Files :=
  if env.ytDlpPresent = false then
    (Except.error (depMissingMsg ("yt-dlp")), [Event.depCheck ("yt-dlp")], noFiles)
  else if env.ffmpegPresent = false then
    (Except.error (depMissingMsg ("ffmpeg")),
      [Event.depCheck ("yt-dlp"), Event.depCheck ("ffmpeg")], noFiles)
  else
    match env.fetchResult with
    | Except.error e => (Except.error e, preFetch, noFiles)
    | Except.ok info =>
      match chaptersOrError info.chapters with
      | Except.error e => (Except.error e, preFetch, noFiles)
      | Except.ok chapters =>
        if env.clipsDirOk = false then
          (Except.error ("Failed to create clips directory"), preFetch, noFiles)
        else if env.downloadOk = false then
          (Except.error ("Failed to download video"),
            preFetch ++ [Event.download], noFiles)
        else if env.downloadFileExists = false then
          (Except.error ("Downloaded video file not found"),
            preFetch ++ [Event.download], noFiles)
        else
          let r := splitGo env.splitOk 0 chapters
          let tr2 := preFetch ++ [Event.download] ++ r.1.map Event.splitInvoke
          let files2 : Files := { fullVideo := true, clips := r.2.1 }
          match r.2.2 with
          | some e => (Except.error e, tr2, files2)
          | none =>
            let fp := formatsPhase args env chapters
            match fp.1 with
            | Except.error e => (Except.error e, tr2 ++ fp.2, files2)
            | Except.ok _ =>
              if args.keep_full = false then
                if env.removeOk = false then
                  (Except.error ("Failed to remove full video file"),
                    tr2 ++ fp.2 ++ [Event.removeFull], files2)
                else
                  (Except.ok (), tr2 ++ fp.2 ++ [Event.removeFull],
                    { files2 with fullVideo := false })
              else (Except.ok (), tr2 ++ fp.2, files2)

/-- Claim C4: if the fetched metadata has an absent or empty chapter list,
the pipeline fails before the download stage is ever invoked, and (when the
dependency checks pass) with the distinct "No chapters found in this video"
error. -/
theorem no_chapters_fails_before_download (args : Args) (env : Env)
    (info : VideoInfo) (hf : env.fetchResult = Except.ok info)
    (hch : info.chapters = none ∨ info.chapters = some []) :
    (∃ msg, (mainRun args env).1 = Except.error msg) ∧
    Event.download ∉ (mainRun args env).2.1 ∧
    (env.ytDlpPresent = true → env.ffmpegPresent = true →
      (mainRun args env).1 = Except.error ("No chapters found in this video")) := by
  have hco : chaptersOrError info.chapters =
      Except.error ("No chapters found in this video") := by
    rcases hch with h | h <;> simp [h, chaptersOrError]
  cases h1 : env.ytDlpPresent
  case false =>
    exact ⟨⟨depMissingMsg ("yt-dlp"), by simp [mainRun, h1]⟩,
      by simp [mainRun, h1], fun ht _ => Bool.noConfusion ht⟩
  case true =>
    cases h2 : env.ffmpegPresent
    case false =>
      exact ⟨⟨depMissingMsg ("ffmpeg"), by simp [mainRun, h1, h2]⟩,
        by simp [mainRun, h1, h2], fun _ ht => Bool.noConfusion ht⟩
    case true =>
      refine ⟨⟨("No chapters found in this video"), ?_⟩, ?_, fun _ _ => ?_⟩ <;>
        simp [mainRun, h1, h2, hf, hco, preFetch]

/-- Arguments used by the pipeline witnesses. -/
def demoArgs : Args := { url := ("u"), keep_full := false, formats := false }

/-- Environment whose metadata fetch returns a video with no chapter
list. -/
def envNoChapters : Env :=
  { ytDlpPresent := true, ffmpegPresent := true
    fetchResult := Except.ok { title := ("T"), chapters := none }
    clipsDirOk := true, downloadOk := true, downloadFileExists := true
    splitOk := fun _ => true, formatsDirOk := true
    variantDirs := Except.ok (), variantSpawn := fun _ _ => true
    variantExit := fun _ _ => true, removeOk := true }

theorem no_chapters_fails_before_download_witness :
    (∃ msg, (mainRun demoArgs envNoChapters).1 = Except.error msg) ∧
    Event.download ∉ (mainRun demoArgs envNoChapters).2.1 ∧
    (envNoChapters.ytDlpPresent = true → envNoChapters.ffmpegPresent = true →
      (mainRun demoArgs envNoChapters).1 =
        Except.error ("No chapters found in this video")) :=
  no_chapters_fails_before_download demoArgs envNoChapters
    { title := ("T"), chapters := none } rfl (Or.inl rfl)

/-- Claim C8: on a successful run the merged full-length video is present
afterwards exactly when the keep-full flag was given; and with the flag
unset a failing deletion makes a successful outcome impossible (the error
is propagated, not ignored). -/
theorem full_video_removed_unless_kept (args : Args) (env : Env) :
    ((mainRun args env).1 = Except.ok () →
      (mainRun args env).2.2.fullVideo = args.keep_full) ∧
    (args.keep_full = false → env.removeOk = false →
      (mainRun args env).1 ≠ Except.ok ()) := by
  unfold mainRun
  cases h1 : env.ytDlpPresent
  case false => simp [h1]
  case true =>
    cases h2 : env.ffmpegPresent
    case false => simp [h1, h2]
    case true =>
      cases hfr : env.fetchResult
      case error e => simp [h1, h2, hfr]
      case ok info =>
        cases hco : chaptersOrError info.chapters
        case error e => simp [h1, h2, hfr, hco]
        case ok chapters =>
          cases h3 : env.clipsDirOk
          case false => simp [h1, h2, hfr, hco, h3]
          case true =>
            cases h4 : env.downloadOk
            case false => simp [h1, h2, hfr, hco, h3, h4]
            case true =>
              cases h5 : env.downloadFileExists
              case false => simp [h1, h2, hfr, hco, h3, h4, h5]
              case true =>
                cases hs : (splitGo env.splitOk 0 chapters).2.2
                case some e => simp [h1, h2, hfr, hco, h3, h4, h5, hs]
                case none =>
                  cases hfp : (formatsPhase args env chapters).1
                  case error e => simp [h1, h2, hfr, hco, h3, h4, h5, hs, hfp]
                  case ok u =>
                    cases h6 : args.keep_full
                    case true => simp [h1, h2, hfr, hco, h3, h4, h5, hs, hfp, h6]
                    case false =>
                      cases h7 : env.removeOk
                      case false =>
                        simp [h1, h2, hfr, hco, h3, h4, h5, hs, hfp, h6, h7]
                      case true =>
                        simp [h1, h2, hfr, hco, h3, h4, h5, hs, hfp, h6, h7]

/-- Environment where every external operation succeeds, on a two-chapter
video. -/
def envAllOk : Env :=
  { ytDlpPresent := true, ffmpegPresent := true
    fetchResult := Except.ok { title := ("T"), chapters := some demoPair }
    clipsDirOk := true, downloadOk := true, downloadFileExists := true
    splitOk := fun _ => true, formatsDirOk := true
    variantDirs := Except.ok (), variantSpawn := fun _ _ => true
    variantExit := fun _ _ => true, removeOk := true }

/-- Like `envAllOk` but the final file deletion fails. -/
def envRemoveFail : Env := { envAllOk with removeOk := false }

theorem full_video_removed_unless_kept_witness :
    ((mainRun demoArgs envAllOk).1 = Except.ok () ∧
     (mainRun demoArgs envAllOk).2.2.fullVideo = demoArgs.keep_full) ∧
    (demoArgs.keep_full = false ∧ envRemoveFail.removeOk = false ∧
     (mainRun demoArgs envRemoveFail).1 ≠ Except.ok ()) :=
  ⟨⟨rfl, (full_video_removed_unless_kept demoArgs envAllOk).1 rfl⟩,
   ⟨rfl, rfl, (full_video_removed_unless_kept demoArgs envRemoveFail).2 rfl rfl⟩⟩
